import Mathlib

set_option maxRecDepth 16000

/-!
Verification of the GenSpark career-advisor core (functions/utils.js and the
Express function entry point) against its natural-language specification.

The JavaScript source is shallowly embedded: strings are processed as lists
of characters, JavaScript objects are association lists in insertion order,
parsed JSON values are an inductive type `JVal` with integer numerals, and
floating-point arithmetic is replaced by exact real arithmetic (the
"exact-arithmetic embedding" used throughout).  Fallible operations return
`Option`.  All embeddings follow the source; the sole exception, marked
below, is the static alias table `skill_aliases.json`, which is not part of
the available sources and is modelled from the specification.
-/

/- ===================================================================
   Section 1: JavaScript string primitives (utils.js, canonicalizeSkillName)
   =================================================================== -/

/-- Whitespace characters recognised by the JavaScript `\s` regex class and
`String.prototype.trim`, restricted to the ASCII range (the embedding is
faithful for ASCII input). -/
def jsIsSpace (c : Char) : Bool :=
  c = ' ' || c = '\t' || c = '\n' || c = '\r' || c = Char.ofNat 11 || c = Char.ofNat 12

/-- Characters kept by the replace step `.replace(/[^\/\w\s-]/g, '')` in
`canonicalizeSkillName`: word characters (`[A-Za-z0-9_]`), whitespace,
slash and hyphen. -/
def keepChar (c : Char) : Bool :=
  c.isAlphanum || c = '_' || jsIsSpace c || c = '/' || c = '-'

/-- Embedding of `String.prototype.trim` on a character list: drop leading
and trailing whitespace. -/
def trimChars (l : List Char) : List Char :=
  ((l.dropWhile jsIsSpace).reverse.dropWhile jsIsSpace).reverse

/-- Embedding of `.replace(/\s+/g, ' ')`: every maximal run of whitespace
characters becomes a single space.  The flag records whether the previous
character belonged to a whitespace run. -/
def collapseWs : Bool → List Char → List Char
  | _, [] => []
  | prev, c :: cs =>
    if jsIsSpace c then
      if prev then collapseWs true cs else ' ' :: collapseWs true cs
    else
      c :: collapseWs false cs

/-- The cleaning pipeline of `canonicalizeSkillName` (utils.js lines 57-61),
in source order: trim, lowercase, strip disallowed characters, collapse
whitespace runs. -/
def cleanChars (l : List Char) : List Char :=
  collapseWs false (((trimChars l).map Char.toLower).filter keepChar)

/-- Modelled from the spec: `skill_aliases.json`, the static alias table
required by utils.js, is not among the available sources.  Per §4.1 and §9 of
the specification it is a static raw-spelling → canonical-token mapping
(many raw spellings map to one canonical token); this is a representative
such table.  Every value is itself a canonical token. -/
def skillAliases : List (String × String) :=
  [("js", "javascript"), ("py", "python"), ("ml", "machine learning"),
   ("nodejs", "node"), ("reactjs", "react"), ("postgres", "postgresql")]

/-- Embedding of `canonicalizeSkillName` (utils.js lines 55-63) on string
input: clean the name, then `skillAliases[cleaned] || cleaned`.  (Non-string
input returns the empty token in the source; the claims quantify over
strings only.)  The `|| cleaned` semantics means an empty-string alias value
would fall back to the cleaned name. -/
def canonicalizeSkillName (name : String) : String :=
  let cleaned := String.mk (cleanChars name.data)
  match List.lookup cleaned skillAliases with
  | some v => if v = "" then cleaned else v
  | none => cleaned

/-- Embedding of `sanitizeSkill` (utils.js lines 206-213) on string input:
canonicalize, then cap at 50 characters (`substring(0, 50)`). -/
def sanitizeSkill (skill : String) : String :=
  (canonicalizeSkillName skill).take 50

/-- Embedding of the string-level `trim` used on already-built strings. -/
def jsTrim (s : String) : String :=
  String.mk (trimChars s.data)

/-- Embedding of `String.prototype.toLowerCase` (ASCII-faithful). -/
def jsToLower (s : String) : String :=
  String.mk (s.data.map Char.toLower)

/-- Decides whether `pre` is a prefix of `l` (character-wise). -/
def prefixOfChars : List Char → List Char → Bool
  | [], _ => true
  | _ :: _, [] => false
  | a :: as, b :: bs => a == b && prefixOfChars as bs

/-- Embedding of `String.prototype.includes`: `needle` occurs contiguously
inside `hay`. -/
def listContainsSub : List Char → List Char → Bool
  | [], n => n.isEmpty
  | c :: t, n => prefixOfChars n (c :: t) || listContainsSub t n

/-- String-level `hay.includes(needle)`. -/
def containsSubstr (hay needle : String) : Bool :=
  listContainsSub hay.data needle.data

/- ===================================================================
   Section 2: error classification of the /api/recommend handler
   (index.js, catch block of app.post handler)
   =================================================================== -/

/-- Embedding of the catch-block status classification in the
`/api/recommend` handler: the source tests `error.message.includes('API key')`
first, then `'quota'`, then `'timeout'`, and defaults to 500. -/
def classifyRecommendError (msg : String) : Nat :=
  if containsSubstr msg "API key" then 500
  else if containsSubstr msg "quota" then 429
  else if containsSubstr msg "timeout" then 408
  else 500

/- ===================================================================
   Section 3: JavaScript values and objects
   =================================================================== -/

/-- Values produced by `JSON.parse`, together with the named properties a
JavaScript array can acquire after parsing (the plan repair code assigns
properties to whatever the parsed `weeks` entries are).  Numbers are
embedded as integers: the code only ever compares them against the integers
1..4 or tests them for truthiness, and any non-integer number behaves
exactly like a mismatched integer in those tests. -/
inductive JVal where
  | null : JVal
  | bool : Bool → JVal
  | num : Int → JVal
  | str : String → JVal
  | arr : List JVal → List (String × JVal) → JVal
  | obj : List (String × JVal) → JVal

/-- JavaScript property update on an object viewed as an insertion-ordered
association list: an existing key keeps its position and gets the new value,
a new key is appended. -/
def objSet {β : Type} : List (String × β) → String → β → List (String × β)
  | [], k, v => [(k, v)]
  | (k₀, v₀) :: t, k, v =>
    if k₀ = k then (k₀, v) :: t else (k₀, v₀) :: objSet t k v

/-- Property read `x[k]` on a JavaScript value: objects and arrays have
properties, primitives have none (`undefined`, embedded as `none`).
Reading a property of `null` throws in JavaScript; the callers below handle
the `null` case explicitly before reading. -/
def jsGetProp : JVal → String → Option JVal
  | JVal.obj props, k => List.lookup k props
  | JVal.arr _ props, k => List.lookup k props
  | _, _ => none

/-- Property write `x[k] = v`: updates objects and arrays; in non-strict
mode a write to a primitive is a silent no-op. -/
def jsSetProp : JVal → String → JVal → JVal
  | JVal.obj props, k, v => JVal.obj (objSet props k v)
  | JVal.arr e props, k, v => JVal.arr e (objSet props k v)
  | x, _, _ => x

/-- JavaScript truthiness of a value. -/
def truthy : JVal → Bool
  | JVal.null => false
  | JVal.bool b => b
  | JVal.num n => n != 0
  | JVal.str s => s ≠ ""
  | JVal.arr _ _ => true
  | JVal.obj _ => true

/-- Truthiness of a possibly-absent value (`undefined` is falsy). -/
def truthyOpt : Option JVal → Bool
  | none => false
  | some v => truthy v

def isNullJ : JVal → Bool
  | JVal.null => true
  | _ => false

/-- Whether the value is a JavaScript object in the wide sense (object or
array), i.e. whether property writes on it take effect. -/
def isObjOrArr : JVal → Bool
  | JVal.obj _ => true
  | JVal.arr _ _ => true
  | _ => false

/- ===================================================================
   Section 4: parseLearningPlan (index.js lines 390-489)
   =================================================================== -/

/-- The hard-coded fallback learning plan returned by `parseLearningPlan`
when parsing or repair throws (index.js lines 456-487). -/
def fallbackPlan : JVal :=
  JVal.obj [("weeks", JVal.arr
    [JVal.obj [("week", JVal.num 1),
       ("topics", JVal.arr [JVal.str "Basic concepts and fundamentals"] []),
       ("practice", JVal.arr [JVal.str "Hands-on exercises and tutorials"] []),
       ("assessment", JVal.str "Knowledge check quiz"),
       ("project", JVal.str "Simple introductory project")],
     JVal.obj [("week", JVal.num 2),
       ("topics", JVal.arr [JVal.str "Intermediate concepts and techniques"] []),
       ("practice", JVal.arr [JVal.str "Practical exercises and case studies"] []),
       ("assessment", JVal.str "Skills assessment"),
       ("project", JVal.str "Intermediate level project")],
     JVal.obj [("week", JVal.num 3),
       ("topics", JVal.arr [JVal.str "Advanced concepts and best practices"] []),
       ("practice", JVal.arr [JVal.str "Complex exercises and real-world scenarios"] []),
       ("assessment", JVal.str "Advanced skills test"),
       ("project", JVal.str "Advanced level project")],
     JVal.obj [("week", JVal.num 4),
       ("topics", JVal.arr [JVal.str "Integration and real-world application"] []),
       ("practice", JVal.arr [JVal.str "Final project preparation"] []),
       ("assessment", JVal.str "Final project review"),
       ("project", JVal.str "Capstone project")]] [])]

/-- The placeholder weeks pushed by the padding loop
`while (plan.weeks.length < 4) plan.weeks.push({ week: plan.weeks.length + 1 })`:
starting from length `n`, objects carrying only the week number. -/
def padWeeks (n : Nat) : List JVal :=
  (List.range (4 - n)).map (fun i : Nat => JVal.obj [("week", JVal.num ((n + i + 1 : Nat) : Int))])

/-- The week-number repair `if (!week.week || week.week !== index + 1)
week.week = index + 1`: the property is kept only when it is already the
number `i + 1` (which is nonzero, hence truthy); any other value, absence
included, is overwritten. -/
def forceWeekNum (i : Nat) (props : List (String × JVal)) : List (String × JVal) :=
  match List.lookup "week" props with
  | some (JVal.num n) =>
    if n = (i : Int) + 1 then props else objSet props "week" (JVal.num ((i : Int) + 1))
  | _ => objSet props "week" (JVal.num ((i : Int) + 1))

/-- The repair `if (!week[k] || !Array.isArray(week[k])) week[k] = [ph]`:
an array (always truthy) is kept, anything else is replaced. -/
def defaultArrProp (k : String) (ph : JVal) (props : List (String × JVal)) :
    List (String × JVal) :=
  match List.lookup k props with
  | some (JVal.arr _ _) => props
  | _ => objSet props k ph

/-- The repair `if (!week[k]) week[k] = ph`: a truthy value is kept, a
falsy or absent one is replaced. -/
def defaultTruthyProp (k : String) (ph : JVal) (props : List (String × JVal)) :
    List (String × JVal) :=
  if truthyOpt (List.lookup k props) then props else objSet props k ph

/-- Repair of one week entry's properties at 0-based index `i`
(index.js lines 428-448): force `week` to `i + 1` unless it is already the
truthy number `i + 1`; default `topics`/`practice` to one-element
placeholder arrays unless they are arrays; default falsy
`assessment`/`project` to placeholder strings. -/
def repairWeekProps (i : Nat) (props : List (String × JVal)) : List (String × JVal) :=
  defaultTruthyProp "project" (JVal.str "Project to be determined")
    (defaultTruthyProp "assessment" (JVal.str "Assessment to be determined")
      (defaultArrProp "practice" (JVal.arr [JVal.str "Practice activities to be determined"] [])
        (defaultArrProp "topics" (JVal.arr [JVal.str "Topics to be determined"] [])
          (forceWeekNum i props))))

/-- Repair of one week entry: objects and arrays get their properties
repaired; property writes on a primitive are silent no-ops in non-strict
mode, so primitive entries pass through unchanged.  (A `null` entry throws
in the source; `parseLearningPlan` filters that case out before calling
this.) -/
def repairWeek (i : Nat) : JVal → JVal
  | JVal.obj props => JVal.obj (repairWeekProps i props)
  | JVal.arr e props => JVal.arr e (repairWeekProps i props)
  | w => w

/-- The `forEach` repair pass over the (already padded or truncated) weeks. -/
def repairWeeks (i : Nat) : List JVal → List JVal
  | [] => []
  | w :: ws => repairWeek i w :: repairWeeks (i + 1) ws

/-- Embedding of `parseLearningPlan` (index.js lines 390-489).  The fenced
code-block extraction and `JSON.parse` stage is represented by its outcome:
`none` when no structured value could be parsed (the catch path), and
`some v` for the parsed value.  The source then requires `plan.weeks` to be
an array (anything else throws into the catch and yields the fallback
plan), pads with placeholder weeks or truncates via `slice(0, 4)` (which
drops any named properties of the array), and runs the per-week repair; a
`null` week entry throws during repair, which also yields the fallback
plan, since the mutated local `plan` is then discarded. -/
def parseLearningPlan (parsed : Option JVal) : JVal :=
  match parsed with
  | none => fallbackPlan
  | some p =>
    match jsGetProp p "weeks" with
    | some (JVal.arr elems props) =>
      let padded := if elems.length < 4 then elems ++ padWeeks elems.length else elems.take 4
      let props := if elems.length > 4 then [] else props
      if padded.any isNullJ then fallbackPlan
      else jsSetProp p "weeks" (JVal.arr (repairWeeks 0 padded) props)
    | _ => fallbackPlan

/-- The weeks-shape property exactly as the claim states it: the result has
a `weeks` array of exactly 4 entries and the `week` property of every entry
is its 1-based position. -/
def strictWeeksOk (plan : JVal) : Bool :=
  match jsGetProp plan "weeks" with
  | some (JVal.arr l _) => l.length = 4 && strictAux 0 l
  | _ => false
where
  strictAux : Nat → List JVal → Bool
    | _, [] => true
    | i, w :: ws =>
      (match jsGetProp w "week" with
       | some (JVal.num n) => n = (i : Int) + 1
       | _ => false) && strictAux (i + 1) ws

/-- The weeks-shape property the code actually guarantees: a `weeks` array
of exactly 4 entries whose `week` property is its 1-based position for
every entry that is an object or array (primitive entries cannot carry
properties). -/
def repairedWeeksOk (plan : JVal) : Bool :=
  match jsGetProp plan "weeks" with
  | some (JVal.arr l _) => l.length = 4 && repairedAux 0 l
  | _ => false
where
  repairedAux : Nat → List JVal → Bool
    | _, [] => true
    | i, w :: ws =>
      (if isObjOrArr w then
        (match jsGetProp w "week" with
         | some (JVal.num n) => n = (i : Int) + 1
         | _ => false)
       else true) && repairedAux (i + 1) ws

/- ===================================================================
   Section 5: validateAndCleanProfile (utils.js lines 220-263)
   =================================================================== -/

/-- Embedding of `sanitizeSkill` applied to an arbitrary array element, as
`validateAndCleanProfile` does via `.map(sanitizeSkill)`: non-string input
yields the empty token. -/
def sanitizeSkillJ : JVal → String
  | JVal.str s => sanitizeSkill s
  | _ => ""

/-- The cleaning applied to the `skills` and `interests` arrays: map every
entry through the sanitizer, drop empties, cap the length
(`.map(sanitizeSkill).filter(s => s.length > 0).slice(0, cap)`). -/
def cleanStrArray (cap : Nat) (elems : List JVal) : List JVal :=
  (((elems.map sanitizeSkillJ).filter (fun s => s.length > 0)).take cap).map JVal.str

/-- One array-valued field cleaning step of `validateAndCleanProfile`: only
applies when the field currently holds an array (`Array.isArray`). -/
def cleanArrField (k : String) (cap : Nat) (c : List (String × JVal)) : List (String × JVal) :=
  match List.lookup k c with
  | some (JVal.arr e _) => objSet c k (JVal.arr (cleanStrArray cap e) [])
  | _ => c

/-- The `weeklyTime` clamping step: only a value of number type is clamped
into [1, 40] (`typeof cleaned.weeklyTime === 'number'`). -/
def cleanTimeField (c : List (String × JVal)) : List (String × JVal) :=
  match List.lookup "weeklyTime" c with
  | some (JVal.num n) => objSet c "weeklyTime" (JVal.num (min (max n 1) 40))
  | _ => c

/-- Whether the field `k` of the object currently holds one of the allowed
enumeration strings (`validList.includes(cleaned[k])`, which can only match
a string value). -/
def fieldInEnum (c : List (String × JVal)) (k : String) (allowed : List String) : Bool :=
  match List.lookup k c with
  | some (JVal.str s) => allowed.contains s
  | _ => false

/-- One enumeration coercion step of `validateAndCleanProfile`:
`if (!valid.includes(cleaned[k])) cleaned[k] = dflt`. -/
def coerceEnumField (k : String) (allowed : List String) (dflt : String)
    (c : List (String × JVal)) : List (String × JVal) :=
  if fieldInEnum c k allowed then c else objSet c k (JVal.str dflt)

/-- Embedding of `validateAndCleanProfile` (utils.js lines 220-263) on the
profile object represented as an insertion-ordered association list.  The
source first copies the object (`{ ...profile }`) and then performs the six
field updates in order; the copy is identity in a pure embedding. -/
def validateAndCleanProfile (profile : List (String × JVal)) : List (String × JVal) :=
  coerceEnumField "language" ["en", "hi"] "en"
    (coerceEnumField "budget" ["free", "low", "any"] "free"
      (coerceEnumField "education" ["12th", "Diploma", "UG", "PG", "Other"] "Other"
        (cleanTimeField
          (cleanArrField "interests" 10
            (cleanArrField "skills" 20 profile)))))

/- ===================================================================
   Section 6: skill vectors and cosine similarity (utils.js lines 10-97)
   =================================================================== -/

/-- A sparse skill vector: a JavaScript object mapping skill names to
numeric weights, embedded as an insertion-ordered association list with
exact real values in place of floats. -/
abbrev SkillVec := List (String × ℝ)

/-- Reading `vector[key] || 0`: a missing key reads as 0 (and a stored 0
also yields 0, which coincides with `getD 0`). -/
noncomputable def vecGet (v : SkillVec) (k : String) : ℝ :=
  (List.lookup k v).getD 0

/-- The keys of a vector (`Object.keys`). -/
def vecKeys (v : SkillVec) : List String :=
  v.map Prod.fst

/-- A role skill entry `{ name, weight }` (roles.json); an absent weight is
embedded as 0, which the source's `skill.weight || 1.0` maps to 1 exactly
as it maps an explicit 0. -/
structure RoleSkill where
  name : String
  weight : ℝ

/-- Embedding of `normalizeSkills` (utils.js lines 37-48): a uniform
weight-1 vector over the canonicalized skills, skipping empty tokens;
object assignment semantics via `objSet`. -/
def normalizeSkills (skills : List String) : SkillVec :=
  skills.foldl
    (fun acc s =>
      let key := canonicalizeSkillName s
      if key.length > 0 then objSet acc key 1 else acc)
    []

open Classical in
/-- The role-skills vector built inside `calculateFitScore` (utils.js lines
19-23): canonicalized names mapped to `skill.weight || 1.0`. -/
noncomputable def roleVector (roleSkills : List RoleSkill) : SkillVec :=
  roleSkills.foldl
    (fun acc sk =>
      objSet acc (canonicalizeSkillName sk.name) (if sk.weight = 0 then 1 else sk.weight))
    []

open Classical in
/-- Embedding of `cosineSimilarity` (utils.js lines 71-97): iterate over
the set union of the keys, accumulate the dot product and both squared
magnitudes, and return `dot / (|A|·|B|)` with an exact-0 guard when either
magnitude is 0.  (`List.dedup` keeps one occurrence per key; the sum does
not depend on the iteration order of the key set.) -/
noncomputable def cosineSimilarity (A B : SkillVec) : ℝ :=
  let ks := (vecKeys A ++ vecKeys B).dedup
  let dot := (ks.map (fun k => vecGet A k * vecGet B k)).sum
  let magA := Real.sqrt ((ks.map (fun k => vecGet A k * vecGet A k)).sum)
  let magB := Real.sqrt ((ks.map (fun k => vecGet B k * vecGet B k)).sum)
  if magA = 0 ∨ magB = 0 then 0 else dot / (magA * magB)

/-- Embedding of `Math.round`: round half toward positive infinity. -/
noncomputable def jsRound (x : ℝ) : ℤ :=
  ⌊x + 1 / 2⌋

/-- Embedding of `calculateFitScore` (utils.js lines 10-30).  A `none`
argument stands for a null/undefined skill list; the guard returns 0 for
absent or empty inputs, otherwise the cosine similarity is scaled to a
0-100 integer. -/
noncomputable def calculateFitScore (userSkills : Option (List String))
    (roleSkills : Option (List RoleSkill)) : ℤ :=
  match userSkills, roleSkills with
  | some us, some rs =>
    if us.length = 0 ∨ rs.length = 0 then 0
    else jsRound (cosineSimilarity (normalizeSkills us) (roleVector rs) * 100)
  | _, _ => 0

/- ===================================================================
   Section 7: overlap, gap, interest and blended score
   (utils.js lines 105-199)
   =================================================================== -/

/-- Embedding of `calculateOverlapRatio` (utils.js lines 105-118): the
number of user-skill entries (with multiplicity) whose canonical token
occurs among the role's canonical tokens, divided by the number of
role-skill entries, as an exact rational. -/
def calculateOverlapRatio (userSkills : Option (List String))
    (roleSkills : Option (List RoleSkill)) : ℚ :=
  match userSkills, roleSkills with
  | some us, some rs =>
    if us.length = 0 ∨ rs.length = 0 then 0
    else
      let nu := us.map canonicalizeSkillName
      let nr := rs.map (fun s => canonicalizeSkillName s.name)
      ((nu.filter (fun s => nr.contains s)).length : ℚ) / (nr.length : ℚ)
  | _, _ => 0

/-- Embedding of `calculateGapSkills` (utils.js lines 126-137): canonical
role skills absent from the canonical user skills, in role order. -/
def calculateGapSkills (userSkills : Option (List String))
    (roleSkills : Option (List RoleSkill)) : List String :=
  match userSkills, roleSkills with
  | some us, some rs =>
    let nu := us.map canonicalizeSkillName
    let nr := rs.map (fun s => canonicalizeSkillName s.name)
    nr.filter (fun s => !nu.contains s)
  | _, _ => []

/-- Embedding of `calculateOverlapSkills` (utils.js lines 145-156):
canonical user skills present among the canonical role skills, in user
order. -/
def calculateOverlapSkills (userSkills : Option (List String))
    (roleSkills : Option (List RoleSkill)) : List String :=
  match userSkills, roleSkills with
  | some us, some rs =>
    let nu := us.map canonicalizeSkillName
    let nr := rs.map (fun s => canonicalizeSkillName s.name)
    nu.filter (fun s => nr.contains s)
  | _, _ => []

/-- A catalog role (roles.json entry). -/
structure Role where
  roleId : String
  title : String
  sector : String
  skills : List RoleSkill

/-- Embedding of `calculateInterestMatch` (utils.js lines 185-199): 1 when
some normalized user interest is a substring of the lowercased
"sector title" string, else 0. -/
def calculateInterestMatch (userInterests : Option (List String))
    (role : Option Role) : ℚ :=
  match userInterests, role with
  | some ins, some r =>
    let roleText := jsToLower (r.sector ++ " " ++ r.title)
    if ins.any (fun i => containsSubstr roleText (jsTrim (jsToLower i))) then 1 else 0
  | _, _ => 0

/-- Embedding of `calculateEnhancedFitScore` (utils.js lines 166-177): the
60/20/20 blend of fit score, overlap ratio and interest match, rounded. -/
noncomputable def calculateEnhancedFitScore (userSkills : Option (List String))
    (roleSkills : Option (List RoleSkill)) (userInterests : Option (List String))
    (role : Option Role) : ℤ :=
  let skillsScore := (calculateFitScore userSkills roleSkills : ℝ) * (6 / 10)
  let overlapScore := (calculateOverlapRatio userSkills roleSkills : ℝ) * 100 * (2 / 10)
  let interestScore := (calculateInterestMatch userInterests role : ℝ) * 100 * (2 / 10)
  jsRound (skillsScore + overlapScore + interestScore)

/- ===================================================================
   Section 8: getTopRoleMatches (index.js lines 276-308)
   =================================================================== -/

/-- The profile fields `getTopRoleMatches` reads (a normalized profile has
arrays of strings in both). -/
structure MatchProfile where
  skills : List String
  interests : List String

/-- A scored catalog role as assembled in `getTopRoleMatches`
(`{ ...role, score, overlapSkills, gapSkills }`; the role spread is
embedded as a nested field). -/
structure RoleMatch where
  role : Role
  score : ℤ
  overlapSkills : List String
  gapSkills : List String

/-- The per-role scoring step of `getTopRoleMatches` (index.js lines
279-301): canonical overlap and gap sets computed inline, and the blended
enhanced score. -/
noncomputable def scoreRole (profile : MatchProfile) (role : Role) : RoleMatch :=
  let nr := role.skills.map (fun s => canonicalizeSkillName s.name)
  let np := profile.skills.map canonicalizeSkillName
  { role := role
    score := calculateEnhancedFitScore (some profile.skills) (some role.skills)
      (some profile.interests) (some role)
    overlapSkills := np.filter (fun s => nr.contains s)
    gapSkills := nr.filter (fun s => !np.contains s) }

/-- Stable descending insertion by score key: the new element is placed
after every already-placed element whose key is strictly greater, and
before the first element whose key is less than or equal — so elements
with equal keys keep their original relative order. -/
def insertDesc {α : Type} (key : α → ℤ) (x : α) : List α → List α
  | [] => [x]
  | y :: ys => if key x < key y then y :: insertDesc key x ys else x :: y :: ys

/-- Embedding of the stable `Array.prototype.sort((a, b) => b.score - a.score)`:
ECMAScript sort is stable, and a stable sort under a total preorder has a
unique result, here realised as a stable insertion sort. -/
def jsStableSortDesc {α : Type} (key : α → ℤ) : List α → List α
  | [] => []
  | x :: xs => insertDesc key x (jsStableSortDesc key xs)

/-- Embedding of `getTopRoleMatches` (index.js lines 276-308), with the
role catalog (`roles.json`, loaded once at process start) passed as the
`roleCatalog` parameter of the specification's `rankRoles`: score every
role, sort descending by score, take the first `count` (default 3 at the
call site). -/
noncomputable def getTopRoleMatches (profile : MatchProfile) (catalog : List Role)
    (count : Nat) : List RoleMatch :=
  (jsStableSortDesc (fun m => m.score) (catalog.map (scoreRole profile))).take count

/- ===================================================================
   Shared lemmas about JavaScript object updates
   =================================================================== -/

lemma lookup_objSet_self {β : Type} (l : List (String × β)) (k : String) (v : β) :
    List.lookup k (objSet l k v) = some v := by
  induction l with
  | nil => simp [objSet, List.lookup]
  | cons p t ih =>
    obtain ⟨k₀, v₀⟩ := p
    by_cases h : k₀ = k
    · subst h
      simp [objSet, List.lookup]
    · simp only [objSet, if_neg h, List.lookup]
      have : (k == k₀) = false := by
        simp [beq_iff_eq]
        exact fun hh => h hh.symm
      simp [this, ih]

lemma lookup_objSet_ne {β : Type} (l : List (String × β)) {k q : String} (h : q ≠ k) (v : β) :
    List.lookup q (objSet l k v) = List.lookup q l := by
  induction l with
  | nil =>
    have : (q == k) = false := by simp [beq_iff_eq, h]
    simp [objSet, List.lookup, this]
  | cons p t ih =>
    obtain ⟨k₀, v₀⟩ := p
    by_cases hk : k₀ = k
    · subst hk
      have : (q == k₀) = false := by simp [beq_iff_eq, h]
      simp [objSet, List.lookup, this]
    · simp only [objSet, if_neg hk, List.lookup]
      by_cases hq : q = k₀
      · subst hq
        simp
      · have : (q == k₀) = false := by simp [beq_iff_eq, hq]
        simp [this, ih]

/- ===================================================================
   Claim C8: error-status classification of /api/recommend
   =================================================================== -/

/-- C8 counterexample: the claim as stated assigns 429 to every message
containing "quota", but the source tests "API key" first, so a message
containing both is classified 500. -/
theorem classifyRecommendError_claim_false :
    classifyRecommendError "AI service quota exceeded while rotating the API key" ≠ 429 := by
  decide

/-- C8 (amended): the classification holds with the source's precedence:
a message containing "API key" maps to 500 even if it also contains
"quota" or "timeout"; otherwise "quota" maps to 429, then "timeout" to
408, and everything else to 500. -/
theorem classifyRecommendError_spec (msg : String) :
    (containsSubstr msg "API key" = true → classifyRecommendError msg = 500) ∧
    (containsSubstr msg "API key" = false → containsSubstr msg "quota" = true →
      classifyRecommendError msg = 429) ∧
    (containsSubstr msg "API key" = false → containsSubstr msg "quota" = false →
      containsSubstr msg "timeout" = true → classifyRecommendError msg = 408) ∧
    (containsSubstr msg "API key" = false → containsSubstr msg "quota" = false →
      containsSubstr msg "timeout" = false → classifyRecommendError msg = 500) := by
  unfold classifyRecommendError
  refine ⟨fun h1 => by simp [h1], fun h1 h2 => by simp [h1, h2],
    fun h1 h2 h3 => by simp [h1, h2, h3], fun h1 h2 h3 => by simp [h1, h2, h3]⟩

/-- C8 witness: the amended classification evaluated on a quota message. -/
theorem classifyRecommendError_spec_witness :
    classifyRecommendError "AI service quota exceeded" = 429 :=
  (classifyRecommendError_spec "AI service quota exceeded").2.1 (by decide) (by decide)

/- ===================================================================
   Claim C1: parseLearningPlan always yields a 4-week plan
   =================================================================== -/

lemma lookup_forceWeekNum_self (i : Nat) (props : List (String × JVal)) :
    List.lookup "week" (forceWeekNum i props) = some (JVal.num ((i : Int) + 1)) := by
  unfold forceWeekNum
  split
  · rename_i n h
    split
    · rename_i he
      subst he
      exact h
    · exact lookup_objSet_self _ _ _
  · exact lookup_objSet_self _ _ _

lemma lookup_defaultArrProp_ne (k : String) (ph : JVal) {q : String} (h : q ≠ k)
    (props : List (String × JVal)) :
    List.lookup q (defaultArrProp k ph props) = List.lookup q props := by
  unfold defaultArrProp
  split
  · rfl
  · exact lookup_objSet_ne _ h _

lemma lookup_defaultTruthyProp_ne (k : String) (ph : JVal) {q : String} (h : q ≠ k)
    (props : List (String × JVal)) :
    List.lookup q (defaultTruthyProp k ph props) = List.lookup q props := by
  unfold defaultTruthyProp
  split
  · rfl
  · exact lookup_objSet_ne _ h _

lemma lookup_repairWeekProps_week (i : Nat) (props : List (String × JVal)) :
    List.lookup "week" (repairWeekProps i props) = some (JVal.num ((i : Int) + 1)) := by
  unfold repairWeekProps
  rw [lookup_defaultTruthyProp_ne _ _ (by decide),
    lookup_defaultTruthyProp_ne _ _ (by decide),
    lookup_defaultArrProp_ne _ _ (by decide),
    lookup_defaultArrProp_ne _ _ (by decide),
    lookup_forceWeekNum_self]

lemma repairWeek_week {w : JVal} (hw : isObjOrArr w = true) (i : Nat) :
    isObjOrArr (repairWeek i w) = true ∧
      jsGetProp (repairWeek i w) "week" = some (JVal.num ((i : Int) + 1)) := by
  cases w with
  | obj props => exact ⟨rfl, lookup_repairWeekProps_week i props⟩
  | arr e props => exact ⟨rfl, lookup_repairWeekProps_week i props⟩
  | null => simp [isObjOrArr] at hw
  | bool b => simp [isObjOrArr] at hw
  | num n => simp [isObjOrArr] at hw
  | str s => simp [isObjOrArr] at hw

lemma isObjOrArr_repairWeek (i : Nat) (w : JVal) :
    isObjOrArr (repairWeek i w) = isObjOrArr w := by
  cases w <;> rfl

lemma repairWeeks_length (l : List JVal) : ∀ i, (repairWeeks i l).length = l.length := by
  induction l with
  | nil => intro i; rfl
  | cons w ws ih => intro i; simp [repairWeeks, ih]

lemma repairedAux_repairWeeks (l : List JVal) :
    ∀ i, repairedWeeksOk.repairedAux i (repairWeeks i l) = true := by
  induction l with
  | nil => intro i; rfl
  | cons w ws ih =>
    intro i
    simp only [repairWeeks, repairedWeeksOk.repairedAux, Bool.and_eq_true]
    refine ⟨?_, ih (i + 1)⟩
    by_cases hw : isObjOrArr w = true
    · obtain ⟨h1, h2⟩ := repairWeek_week hw i
      simp [h1, h2]
    · rw [isObjOrArr_repairWeek]
      simp only [Bool.not_eq_true] at hw
      simp [hw]

lemma padWeeks_length (n : Nat) : (padWeeks n).length = 4 - n := by
  simp only [padWeeks, List.length_map, List.length_range]

lemma jsGetProp_jsSetProp_self {x : JVal} (hx : isObjOrArr x = true) (k : String) (v : JVal) :
    jsGetProp (jsSetProp x k v) k = some v := by
  cases x with
  | obj props => exact lookup_objSet_self _ _ _
  | arr e props => exact lookup_objSet_self _ _ _
  | null => simp [isObjOrArr] at hx
  | bool b => simp [isObjOrArr] at hx
  | num n => simp [isObjOrArr] at hx
  | str s => simp [isObjOrArr] at hx

lemma fallbackPlan_ok : repairedWeeksOk fallbackPlan = true := by rfl

lemma repairedWeeksOk_jsSetProp {p : JVal} (hp : isObjOrArr p = true)
    (padded : List JVal) (props2 : List (String × JVal)) (hlen : padded.length = 4) :
    repairedWeeksOk (jsSetProp p "weeks" (JVal.arr (repairWeeks 0 padded) props2)) = true := by
  unfold repairedWeeksOk
  rw [jsGetProp_jsSetProp_self hp]
  simp [repairWeeks_length, hlen, repairedAux_repairWeeks]

/-- C1 counterexample: on the parsed input `{"weeks": [1, 2, 3, 4]}` (for
example from the raw text `'{"weeks":[1,2,3,4]}'`) the repair loop's
property writes are silent no-ops on the primitive number entries, so the
returned plan's weeks entries carry no `week` fields at all — the claim's
required shape fails. -/
theorem parseLearningPlan_claim_false :
    strictWeeksOk (parseLearningPlan (some (JVal.obj
      [("weeks", JVal.arr [JVal.num 1, JVal.num 2, JVal.num 3, JVal.num 4] [])]))) = false := by
  rfl

/-- C1 (amended): for every parse outcome, `parseLearningPlan` returns
normally (it is total) and its result has a `weeks` array of exactly 4
entries whose `week` field is its 1-based position for every entry that is
an object or an array; primitive entries (numbers, strings, booleans) pass
through the repair unchanged and carry no `week` field. -/
theorem parseLearningPlan_weeks_shape (parsed : Option JVal) :
    repairedWeeksOk (parseLearningPlan parsed) = true := by
  cases parsed with
  | none => exact fallbackPlan_ok
  | some p =>
    simp only [parseLearningPlan]
    split
    · rename_i elems props h
      have hp : isObjOrArr p = true := by
        cases p <;> simp_all [jsGetProp, isObjOrArr]
      split
      · rename_i hl
        split
        · exact fallbackPlan_ok
        · refine repairedWeeksOk_jsSetProp hp _ _ ?_
          rw [List.length_append, padWeeks_length]
          omega
      · rename_i hl
        split
        · exact fallbackPlan_ok
        · refine repairedWeeksOk_jsSetProp hp _ _ ?_
          rw [List.length_take]
          omega
    · exact fallbackPlan_ok

/- ===================================================================
   Claims C7 and C10: validateAndCleanProfile
   =================================================================== -/

lemma lookup_cleanArrField_ne (k : String) (cap : Nat) {q : String} (h : q ≠ k)
    (c : List (String × JVal)) :
    List.lookup q (cleanArrField k cap c) = List.lookup q c := by
  unfold cleanArrField
  split
  · exact lookup_objSet_ne _ h _
  · rfl

lemma lookup_cleanTimeField_ne {q : String} (h : q ≠ "weeklyTime") (c : List (String × JVal)) :
    List.lookup q (cleanTimeField c) = List.lookup q c := by
  unfold cleanTimeField
  split
  · exact lookup_objSet_ne _ h _
  · rfl

lemma lookup_coerceEnumField_ne (k : String) (allowed : List String) (dflt : String)
    {q : String} (h : q ≠ k) (c : List (String × JVal)) :
    List.lookup q (coerceEnumField k allowed dflt c) = List.lookup q c := by
  unfold coerceEnumField
  split
  · rfl
  · exact lookup_objSet_ne _ h _

lemma fieldInEnum_congr {c c' : List (String × JVal)} {k : String} (allowed : List String)
    (h : List.lookup k c = List.lookup k c') :
    fieldInEnum c k allowed = fieldInEnum c' k allowed := by
  unfold fieldInEnum
  rw [h]

lemma coerceEnumField_mem (k : String) (allowed : List String) (dflt : String)
    (c : List (String × JVal)) (hd : dflt ∈ allowed) :
    ∃ s, List.lookup k (coerceEnumField k allowed dflt c) = some (JVal.str s) ∧ s ∈ allowed := by
  unfold coerceEnumField
  by_cases h : fieldInEnum c k allowed = true
  · rw [if_pos h]
    unfold fieldInEnum at h
    split at h
    · rename_i s heq
      exact ⟨s, heq, by simpa using h⟩
    · exact absurd h (by simp)
  · rw [if_neg h]
    exact ⟨dflt, lookup_objSet_self _ _ _, hd⟩

lemma coerceEnumField_coerces (k : String) (allowed : List String) (dflt : String)
    (c : List (String × JVal)) (h : fieldInEnum c k allowed = false) :
    List.lookup k (coerceEnumField k allowed dflt c) = some (JVal.str dflt) := by
  unfold coerceEnumField
  rw [if_neg (by simp [h])]
  exact lookup_objSet_self _ _ _

lemma cleanArrField_cap (k : String) (cap : Nat) (c : List (String × JVal)) :
    ∀ e pr, List.lookup k (cleanArrField k cap c) = some (JVal.arr e pr) → e.length ≤ cap := by
  unfold cleanArrField
  split
  · rename_i e0 pr0 heq
    intro e pr h
    rw [lookup_objSet_self] at h
    injection h with h
    injection h with h1 h2
    subst h1
    unfold cleanStrArray
    rw [List.length_map]
    exact le_trans (List.length_take_le _ _) le_rfl
  · rename_i hnone
    intro e pr h
    exact absurd h (by intro hh; exact hnone e pr hh)

lemma cleanTimeField_not_num (c : List (String × JVal))
    (h : ∀ n : Int, List.lookup "weeklyTime" c ≠ some (JVal.num n)) :
    cleanTimeField c = c := by
  unfold cleanTimeField
  split
  · rename_i n heq
    exact absurd heq (h n)
  · rfl

/-- C7: the cleaned profile never has more than 20 skills or 10 interests,
its education/budget/language are always members of the documented
enumerations, and an out-of-enumeration input field is coerced to its
documented default (Other / free / en). -/
theorem validateAndCleanProfile_spec (p : List (String × JVal)) :
    (∀ e pr, List.lookup "skills" (validateAndCleanProfile p) = some (JVal.arr e pr) →
      e.length ≤ 20) ∧
    (∀ e pr, List.lookup "interests" (validateAndCleanProfile p) = some (JVal.arr e pr) →
      e.length ≤ 10) ∧
    (∃ s, List.lookup "education" (validateAndCleanProfile p) = some (JVal.str s) ∧
      s ∈ ["12th", "Diploma", "UG", "PG", "Other"]) ∧
    (∃ s, List.lookup "budget" (validateAndCleanProfile p) = some (JVal.str s) ∧
      s ∈ ["free", "low", "any"]) ∧
    (∃ s, List.lookup "language" (validateAndCleanProfile p) = some (JVal.str s) ∧
      s ∈ ["en", "hi"]) ∧
    (fieldInEnum p "education" ["12th", "Diploma", "UG", "PG", "Other"] = false →
      List.lookup "education" (validateAndCleanProfile p) = some (JVal.str "Other")) ∧
    (fieldInEnum p "budget" ["free", "low", "any"] = false →
      List.lookup "budget" (validateAndCleanProfile p) = some (JVal.str "free")) ∧
    (fieldInEnum p "language" ["en", "hi"] = false →
      List.lookup "language" (validateAndCleanProfile p) = some (JVal.str "en")) := by
  unfold validateAndCleanProfile
  refine ⟨?_, ?_, ?_, ?_, ?_, ?_, ?_, ?_⟩
  · intro e pr h
    rw [lookup_coerceEnumField_ne _ _ _ (by decide), lookup_coerceEnumField_ne _ _ _ (by decide),
      lookup_coerceEnumField_ne _ _ _ (by decide), lookup_cleanTimeField_ne (by decide),
      lookup_cleanArrField_ne _ _ (by decide)] at h
    exact cleanArrField_cap _ _ _ _ _ h
  · intro e pr h
    rw [lookup_coerceEnumField_ne _ _ _ (by decide), lookup_coerceEnumField_ne _ _ _ (by decide),
      lookup_coerceEnumField_ne _ _ _ (by decide), lookup_cleanTimeField_ne (by decide)] at h
    exact cleanArrField_cap _ _ _ _ _ h
  · obtain ⟨s, hs, hmem⟩ := coerceEnumField_mem "education" ["12th", "Diploma", "UG", "PG", "Other"]
      "Other" (cleanTimeField (cleanArrField "interests" 10 (cleanArrField "skills" 20 p)))
      (by decide)
    exact ⟨s, by
      rw [lookup_coerceEnumField_ne _ _ _ (by decide), lookup_coerceEnumField_ne _ _ _ (by decide)]
      exact hs, hmem⟩
  · obtain ⟨s, hs, hmem⟩ := coerceEnumField_mem "budget" ["free", "low", "any"] "free"
      (coerceEnumField "education" ["12th", "Diploma", "UG", "PG", "Other"] "Other"
        (cleanTimeField (cleanArrField "interests" 10 (cleanArrField "skills" 20 p))))
      (by decide)
    exact ⟨s, by
      rw [lookup_coerceEnumField_ne _ _ _ (by decide)]
      exact hs, hmem⟩
  · exact coerceEnumField_mem "language" ["en", "hi"] "en" _ (by decide)
  · intro h
    have hlk : List.lookup "education" (cleanTimeField (cleanArrField "interests" 10
        (cleanArrField "skills" 20 p))) = List.lookup "education" p := by
      rw [lookup_cleanTimeField_ne (by decide), lookup_cleanArrField_ne _ _ (by decide),
        lookup_cleanArrField_ne _ _ (by decide)]
    have heq : fieldInEnum (cleanTimeField (cleanArrField "interests" 10
        (cleanArrField "skills" 20 p))) "education" ["12th", "Diploma", "UG", "PG", "Other"]
        = false := by
      rw [fieldInEnum_congr _ hlk]
      exact h
    rw [lookup_coerceEnumField_ne _ _ _ (by decide), lookup_coerceEnumField_ne _ _ _ (by decide)]
    exact coerceEnumField_coerces _ _ _ _ heq
  · intro h
    have hlk : List.lookup "budget" (coerceEnumField "education"
        ["12th", "Diploma", "UG", "PG", "Other"] "Other" (cleanTimeField
        (cleanArrField "interests" 10 (cleanArrField "skills" 20 p))))
        = List.lookup "budget" p := by
      rw [lookup_coerceEnumField_ne _ _ _ (by decide), lookup_cleanTimeField_ne (by decide),
        lookup_cleanArrField_ne _ _ (by decide), lookup_cleanArrField_ne _ _ (by decide)]
    have heq : fieldInEnum (coerceEnumField "education" ["12th", "Diploma", "UG", "PG", "Other"]
        "Other" (cleanTimeField (cleanArrField "interests" 10 (cleanArrField "skills" 20 p))))
        "budget" ["free", "low", "any"] = false := by
      rw [fieldInEnum_congr _ hlk]
      exact h
    rw [lookup_coerceEnumField_ne _ _ _ (by decide)]
    exact coerceEnumField_coerces _ _ _ _ heq
  · intro h
    have hlk : List.lookup "language" (coerceEnumField "budget" ["free", "low", "any"] "free"
        (coerceEnumField "education" ["12th", "Diploma", "UG", "PG", "Other"] "Other"
          (cleanTimeField (cleanArrField "interests" 10 (cleanArrField "skills" 20 p)))))
        = List.lookup "language" p := by
      rw [lookup_coerceEnumField_ne _ _ _ (by decide), lookup_coerceEnumField_ne _ _ _ (by decide),
        lookup_cleanTimeField_ne (by decide), lookup_cleanArrField_ne _ _ (by decide),
        lookup_cleanArrField_ne _ _ (by decide)]
    have heq : fieldInEnum (coerceEnumField "budget" ["free", "low", "any"] "free"
        (coerceEnumField "education" ["12th", "Diploma", "UG", "PG", "Other"] "Other"
          (cleanTimeField (cleanArrField "interests" 10 (cleanArrField "skills" 20 p)))))
        "language" ["en", "hi"] = false := by
      rw [fieldInEnum_congr _ hlk]
      exact h
    exact coerceEnumField_coerces _ _ _ _ heq

/-- C7 witness: the invariants evaluated at a profile with a two-element
skills array and an out-of-enumeration education. -/
theorem validateAndCleanProfile_spec_witness :
    ([JVal.str "a", JVal.str "b"] : List JVal).length ≤ 20 ∧
      List.lookup "education" (validateAndCleanProfile
        [("skills", JVal.arr [JVal.str "a", JVal.str "b"] []), ("education", JVal.str "phd")])
        = some (JVal.str "Other") :=
  ⟨(validateAndCleanProfile_spec
      [("skills", JVal.arr [JVal.str "a", JVal.str "b"] []), ("education", JVal.str "phd")]).1
      [JVal.str "a", JVal.str "b"] [] (by rfl),
    (validateAndCleanProfile_spec
      [("skills", JVal.arr [JVal.str "a", JVal.str "b"] []), ("education", JVal.str "phd")]).2.2.2.2.2.1
      (by rfl)⟩

/-- C10: `validateAndCleanProfile` is a frame over the six fields it
cleans — every other property of the input object is looked up unchanged
in the result — and `weeklyTime` is clamped only when it holds a number:
a non-number or absent `weeklyTime` passes through untouched. -/
theorem validateAndCleanProfile_frame (p : List (String × JVal)) :
    (∀ q : String, q ≠ "skills" → q ≠ "interests" → q ≠ "weeklyTime" → q ≠ "education" →
      q ≠ "budget" → q ≠ "language" →
      List.lookup q (validateAndCleanProfile p) = List.lookup q p) ∧
    (∀ v : JVal, List.lookup "weeklyTime" p = some v → (∀ n : Int, v ≠ JVal.num n) →
      List.lookup "weeklyTime" (validateAndCleanProfile p) = some v) ∧
    (List.lookup "weeklyTime" p = none →
      List.lookup "weeklyTime" (validateAndCleanProfile p) = none) := by
  have hwt : ∀ c : List (String × JVal),
      List.lookup "weeklyTime" (validateAndCleanProfile c)
        = List.lookup "weeklyTime" (cleanTimeField (cleanArrField "interests" 10
            (cleanArrField "skills" 20 c))) := by
    intro c
    unfold validateAndCleanProfile
    rw [lookup_coerceEnumField_ne _ _ _ (by decide), lookup_coerceEnumField_ne _ _ _ (by decide),
      lookup_coerceEnumField_ne _ _ _ (by decide)]
  refine ⟨?_, ?_, ?_⟩
  · intro q h1 h2 h3 h4 h5 h6
    unfold validateAndCleanProfile
    rw [lookup_coerceEnumField_ne _ _ _ h6, lookup_coerceEnumField_ne _ _ _ h5,
      lookup_coerceEnumField_ne _ _ _ h4, lookup_cleanTimeField_ne h3,
      lookup_cleanArrField_ne _ _ h2, lookup_cleanArrField_ne _ _ h1]
  · intro v hv hnum
    rw [hwt p]
    have hkeep : List.lookup "weeklyTime" (cleanArrField "interests" 10
        (cleanArrField "skills" 20 p)) = some v := by
      rw [lookup_cleanArrField_ne _ _ (by decide), lookup_cleanArrField_ne _ _ (by decide)]
      exact hv
    rw [cleanTimeField_not_num _ (by
      intro n hn
      rw [hkeep] at hn
      injection hn with hn
      exact hnum n hn)]
    exact hkeep
  · intro hv
    rw [hwt p]
    have hkeep : List.lookup "weeklyTime" (cleanArrField "interests" 10
        (cleanArrField "skills" 20 p)) = none := by
      rw [lookup_cleanArrField_ne _ _ (by decide), lookup_cleanArrField_ne _ _ (by decide)]
      exact hv
    rw [cleanTimeField_not_num _ (by
      intro n hn
      rw [hkeep] at hn
      exact Option.noConfusion hn)]
    exact hkeep

/-- C10 witness: an unrelated field (`name`) and a string-valued
`weeklyTime` both pass through the cleaner unchanged. -/
theorem validateAndCleanProfile_frame_witness :
    List.lookup "name" (validateAndCleanProfile
        [("name", JVal.str "Ada"), ("weeklyTime", JVal.str "ten")])
      = List.lookup "name" [("name", JVal.str "Ada"), ("weeklyTime", JVal.str "ten")] ∧
    List.lookup "weeklyTime" (validateAndCleanProfile
        [("name", JVal.str "Ada"), ("weeklyTime", JVal.str "ten")])
      = some (JVal.str "ten") :=
  ⟨(validateAndCleanProfile_frame [("name", JVal.str "Ada"), ("weeklyTime", JVal.str "ten")]).1
      "name" (by decide) (by decide) (by decide) (by decide) (by decide) (by decide),
    (validateAndCleanProfile_frame [("name", JVal.str "Ada"), ("weeklyTime", JVal.str "ten")]).2.1
      (JVal.str "ten") (by rfl) (by intro n hn; exact JVal.noConfusion hn)⟩

/- ===================================================================
   Claim C6: overlap and gap skills partition the role's canonical set
   =================================================================== -/

/-- C6: as sets of canonical tokens, `calculateOverlapSkills` and
`calculateGapSkills` are disjoint and their union is exactly the role's
canonical skill set (duplicates ignored). -/
theorem overlapGap_partition (us : List String) (rs : List RoleSkill) :
    Disjoint (calculateOverlapSkills (some us) (some rs)).toFinset
      (calculateGapSkills (some us) (some rs)).toFinset ∧
    (calculateOverlapSkills (some us) (some rs)).toFinset ∪
        (calculateGapSkills (some us) (some rs)).toFinset
      = (rs.map (fun s => canonicalizeSkillName s.name)).toFinset := by
  simp only [calculateOverlapSkills, calculateGapSkills]
  constructor
  · rw [Finset.disjoint_left]
    intro a ha hb
    simp only [List.mem_toFinset, List.mem_filter] at ha hb
    obtain ⟨ha1, ha2⟩ := ha
    obtain ⟨hb1, hb2⟩ := hb
    simp only [Bool.not_eq_true'] at hb2
    have : a ∈ us.map canonicalizeSkillName := ha1
    have hc : (us.map canonicalizeSkillName).contains a = true := by simpa using this
    rw [hc] at hb2
    exact Bool.noConfusion hb2
  · ext a
    simp only [Finset.mem_union, List.mem_toFinset, List.mem_filter, Bool.not_eq_true']
    constructor
    · rintro (⟨h1, h2⟩ | ⟨h1, h2⟩)
      · simpa using h2
      · exact h1
    · intro h
      by_cases hm : a ∈ us.map canonicalizeSkillName
      · exact Or.inl ⟨hm, by simpa using h⟩
      · refine Or.inr ⟨h, ?_⟩
        simpa using hm

/- ===================================================================
   Claim C3: calculateOverlapRatio
   =================================================================== -/

/-- C3 counterexample: with duplicate user skills the ratio counts entries
with multiplicity against the role list length, so it can exceed 1 — it is
not the set-intersection cardinality over the canonical role-set size
(which would be 1 here). -/
theorem calculateOverlapRatio_claim_false :
    calculateOverlapRatio (some ["python", "python"]) (some [⟨"python", 1⟩]) = 2 ∧
      ¬ calculateOverlapRatio (some ["python", "python"]) (some [⟨"python", 1⟩]) ≤ 1 := by
  have hmap : List.map (fun t => canonicalizeSkillName t.name) [(⟨"python", 1⟩ : RoleSkill)]
      = ["python"] := by
    have h : canonicalizeSkillName "python" = "python" := by decide
    simp [h]
  have hnu : List.map canonicalizeSkillName ["python", "python"] = ["python", "python"] := by
    decide
  have hflt : (List.filter (fun s => (["python"] : List String).contains s)
      ["python", "python"]).length = 2 := by decide
  have hval : calculateOverlapRatio (some ["python", "python"]) (some [⟨"python", 1⟩]) = 2 := by
    simp only [calculateOverlapRatio]
    rw [if_neg (by simp)]
    rw [hmap, hnu, hflt]
    norm_num
  refine ⟨hval, ?_⟩
  rw [hval]
  norm_num

/-- C3 (amended): for non-empty inputs the ratio equals the number of
user-skill entries (counted with multiplicity) whose canonical token occurs
among the role's canonical tokens, divided by the number of role-skill
entries; it lies in [0, 1] whenever the user's canonical tokens are
pairwise distinct. -/
theorem calculateOverlapRatio_spec (us : List String) (rs : List RoleSkill)
    (hu : us ≠ []) (hr : rs ≠ []) :
    calculateOverlapRatio (some us) (some rs) =
      (((us.map canonicalizeSkillName).filter
          (fun s => (rs.map (fun t => canonicalizeSkillName t.name)).contains s)).length : ℚ)
        / (rs.length : ℚ) ∧
    ((us.map canonicalizeSkillName).Nodup →
      0 ≤ calculateOverlapRatio (some us) (some rs) ∧
        calculateOverlapRatio (some us) (some rs) ≤ 1) := by
  have hlen : ¬(us.length = 0 ∨ rs.length = 0) := by
    rw [List.length_eq_zero, List.length_eq_zero]
    rintro (h | h)
    · exact hu h
    · exact hr h
  have hmain : calculateOverlapRatio (some us) (some rs) =
      (((us.map canonicalizeSkillName).filter
          (fun s => (rs.map (fun t => canonicalizeSkillName t.name)).contains s)).length : ℚ)
        / (rs.length : ℚ) := by
    simp only [calculateOverlapRatio, if_neg hlen]
    rw [List.length_map]
  refine ⟨hmain, fun hnodup => ?_⟩
  rw [hmain]
  have hrpos : (0 : ℚ) < (rs.length : ℚ) := by
    have : 0 < rs.length := List.length_pos.mpr hr
    exact_mod_cast this
  constructor
  · positivity
  · rw [div_le_one hrpos]
    have hcount : ((us.map canonicalizeSkillName).filter
        (fun s => (rs.map (fun t => canonicalizeSkillName t.name)).contains s)).length
        ≤ rs.length := by
      set nu := us.map canonicalizeSkillName with hnu
      set nr := rs.map (fun t => canonicalizeSkillName t.name) with hnr
      have hfn : (nu.filter (fun s => nr.contains s)).Nodup := hnodup.filter _
      have hsub : (nu.filter (fun s => nr.contains s)).toFinset ⊆ nr.toFinset := by
        intro a ha
        simp only [List.mem_toFinset, List.mem_filter] at ha ⊢
        exact by simpa using ha.2
      calc (nu.filter (fun s => nr.contains s)).length
          = (nu.filter (fun s => nr.contains s)).toFinset.card :=
            (List.toFinset_card_of_nodup hfn).symm
        _ ≤ nr.toFinset.card := Finset.card_le_card hsub
        _ ≤ nr.length := nr.toFinset_card_le
        _ = rs.length := by rw [hnr, List.length_map]
    exact_mod_cast hcount

/-- C3 witness: the amended bounds evaluated on the specification's §8
example (three user skills, four role skills). -/
theorem calculateOverlapRatio_spec_witness :
    0 ≤ calculateOverlapRatio (some ["python", "sql", "excel"])
        (some [⟨"python", 1⟩, ⟨"sql", 9 / 10⟩, ⟨"statistics", 8 / 10⟩, ⟨"tableau", 7 / 10⟩]) ∧
      calculateOverlapRatio (some ["python", "sql", "excel"])
        (some [⟨"python", 1⟩, ⟨"sql", 9 / 10⟩, ⟨"statistics", 8 / 10⟩, ⟨"tableau", 7 / 10⟩]) ≤ 1 :=
  (calculateOverlapRatio_spec ["python", "sql", "excel"]
      [⟨"python", 1⟩, ⟨"sql", 9 / 10⟩, ⟨"statistics", 8 / 10⟩, ⟨"tableau", 7 / 10⟩]
      (List.cons_ne_nil _ _) (List.cons_ne_nil _ _)).2 (by decide)

/- ===================================================================
   Claim C2: idempotence of canonicalizeSkillName
   =================================================================== -/

/-- No two adjacent whitespace characters. -/
def noTwoSpaces (a b : Char) : Prop := jsIsSpace a = false ∨ jsIsSpace b = false

lemma mem_collapseWs {c : Char} : ∀ (f : Bool) (l : List Char),
    c ∈ collapseWs f l → c = ' ' ∨ (c ∈ l ∧ jsIsSpace c = false) := by
  intro f l
  induction l generalizing f with
  | nil => intro h; simp [collapseWs] at h
  | cons a t ih =>
    intro h
    by_cases ha : jsIsSpace a = true
    · cases f with
      | true =>
        simp only [collapseWs, ha, if_true] at h
        rcases ih true h with h1 | ⟨h2, h3⟩
        · exact Or.inl h1
        · exact Or.inr ⟨List.mem_cons_of_mem _ h2, h3⟩
      | false =>
        simp only [collapseWs, ha, if_true, Bool.false_eq_true, if_false, List.mem_cons] at h
        rcases h with h1 | h1
        · exact Or.inl h1
        · rcases ih true h1 with h2 | ⟨h2, h3⟩
          · exact Or.inl h2
          · exact Or.inr ⟨List.mem_cons_of_mem _ h2, h3⟩
    · have ha' : jsIsSpace a = false := by simpa using ha
      simp only [collapseWs, ha', if_false, Bool.false_eq_true, List.mem_cons] at h
      rcases h with h1 | h1
      · subst h1; exact Or.inr ⟨List.mem_cons_self _ _, ha'⟩
      · rcases ih false h1 with h2 | ⟨h2, h3⟩
        · exact Or.inl h2
        · exact Or.inr ⟨List.mem_cons_of_mem _ h2, h3⟩

lemma head_collapseWs_true : ∀ (l : List Char) (c : Char),
    (collapseWs true l).head? = some c → jsIsSpace c = false := by
  intro l
  induction l with
  | nil => intro c h; simp [collapseWs] at h
  | cons a t ih =>
    intro c h
    by_cases ha : jsIsSpace a = true
    · simp only [collapseWs, ha, if_true] at h
      exact ih c h
    · have ha' : jsIsSpace a = false := by simpa using ha
      simp only [collapseWs, ha', Bool.false_eq_true, if_false, List.head?_cons] at h
      injection h with h
      subst h
      exact ha'

lemma chain_collapseWs (l : List Char) : ∀ f, List.Chain' noTwoSpaces (collapseWs f l) := by
  induction l with
  | nil => intro f; simp [collapseWs]
  | cons a t ih =>
    intro f
    by_cases ha : jsIsSpace a = true
    · cases f with
      | true => simpa only [collapseWs, ha, if_true] using ih true
      | false =>
        simp only [collapseWs, ha, if_true, Bool.false_eq_true, if_false]
        rw [List.chain'_cons']
        refine ⟨?_, ih true⟩
        intro y hy
        exact Or.inr (head_collapseWs_true t y hy)
    · have ha' : jsIsSpace a = false := by simpa using ha
      simp only [collapseWs, ha', Bool.false_eq_true, if_false]
      rw [List.chain'_cons']
      exact ⟨fun y _ => Or.inl ha', ih false⟩

lemma collapseWs_eq_self : ∀ (l : List Char), List.Chain' noTwoSpaces l →
    (∀ c ∈ l, jsIsSpace c = true → c = ' ') →
    ∀ f : Bool, (f = true → ∀ c, l.head? = some c → jsIsSpace c = false) →
    collapseWs f l = l := by
  intro l
  induction l with
  | nil => intro _ _ f _; rfl
  | cons a t ih =>
    intro hchain hsp f hf
    by_cases ha : jsIsSpace a = true
    · have haa : a = ' ' := hsp a (List.mem_cons_self _ _) ha
      cases f with
      | true => exact absurd ha (by simp [hf rfl a rfl])
      | false =>
        simp only [collapseWs, ha, if_true, Bool.false_eq_true, if_false]
        have hhead : ∀ c, t.head? = some c → jsIsSpace c = false := by
          intro c hc
          have := (List.chain'_cons'.mp hchain).1 c hc
          rcases this with h1 | h1
          · rw [ha] at h1; exact Bool.noConfusion h1
          · exact h1
        have ht : collapseWs true t = t :=
          ih (List.chain'_cons'.mp hchain).2
            (fun c hc hcs => hsp c (List.mem_cons_of_mem _ hc) hcs) true (fun _ => hhead)
        rw [ht, haa]
    · have ha' : jsIsSpace a = false := by simpa using ha
      simp only [collapseWs, ha', Bool.false_eq_true, if_false]
      congr 1
      exact ih (List.chain'_cons'.mp hchain).2
        (fun c hc hcs => hsp c (List.mem_cons_of_mem _ hc) hcs) false (fun h => nomatch h)

lemma toLower_idem (c : Char) : c.toLower.toLower = c.toLower := by
  by_cases h : 65 ≤ c.toNat ∧ c.toNat ≤ 90
  · obtain ⟨h1, h2⟩ := h
    have hc : c = Char.ofNat c.toNat := (Char.ofNat_toNat c).symm
    interval_cases hn : c.toNat <;> rw [hc] <;> decide
  · have hfix : c.toLower = c := by
      unfold Char.toLower
      rw [if_neg]
      intro hcon
      exact h ⟨hcon.1, hcon.2⟩
    rw [hfix, hfix]

lemma head_dropWhile (p : Char → Bool) : ∀ (l : List Char) (c : Char),
    (l.dropWhile p).head? = some c → p c = false := by
  intro l
  induction l with
  | nil => intro c h; simp at h
  | cons a t ih =>
    intro c h
    by_cases ha : p a = true
    · rw [List.dropWhile_cons_of_pos ha] at h
      exact ih c h
    · rw [List.dropWhile_cons_of_neg ha] at h
      injection h with h
      subst h
      simpa using ha

lemma revDropRev_isPrefix (m : List Char) :
    (m.reverse.dropWhile jsIsSpace).reverse <+: m := by
  have h0 : m.reverse.dropWhile jsIsSpace <:+ m.reverse := List.dropWhile_suffix _
  have h2 := List.reverse_prefix.mpr h0
  rwa [List.reverse_reverse] at h2

lemma trimChars_isInfix (l : List Char) : trimChars l <:+: l := by
  unfold trimChars
  have h1 : (l.dropWhile jsIsSpace) <:+ l := List.dropWhile_suffix _
  exact (revDropRev_isPrefix (l.dropWhile jsIsSpace)).isInfix.trans h1.isInfix

lemma head_trimChars (l : List Char) : ∀ c, (trimChars l).head? = some c →
    jsIsSpace c = false := by
  intro c h
  unfold trimChars at h
  set m := l.dropWhile jsIsSpace with hm
  obtain ⟨rest, hrest⟩ := revDropRev_isPrefix m
  cases he : (m.reverse.dropWhile jsIsSpace).reverse with
  | nil => rw [he] at h; exact absurd h (by simp)
  | cons x xs =>
    rw [he] at h
    have hxc : x = c := by simpa using h
    have hmhead : m.head? = some c := by
      rw [← hrest, he, List.cons_append, List.head?_cons, hxc]
    exact head_dropWhile jsIsSpace l c hmhead

lemma cleanChars_mem (l : List Char) :
    ∀ c ∈ cleanChars l, keepChar c = true ∧ c.toLower = c ∧
      (jsIsSpace c = true → c = ' ') := by
  intro c hc
  unfold cleanChars at hc
  rcases mem_collapseWs false _ hc with h1 | ⟨h2, h3⟩
  · subst h1
    exact ⟨by decide, by decide, fun _ => rfl⟩
  · rw [List.mem_filter] at h2
    obtain ⟨hmap, hkeep⟩ := h2
    rw [List.mem_map] at hmap
    obtain ⟨x, _, hx⟩ := hmap
    refine ⟨hkeep, ?_, fun hs => absurd hs (by simp [h3])⟩
    rw [← hx]
    exact toLower_idem x

lemma cleanChars_chain (l : List Char) : List.Chain' noTwoSpaces (cleanChars l) :=
  chain_collapseWs _ false

lemma cleanChars_cleanChars (l : List Char) :
    cleanChars (cleanChars l) = trimChars (cleanChars l) := by
  have hmem := cleanChars_mem l
  have hchain := cleanChars_chain l
  have hsub : ∀ c ∈ trimChars (cleanChars l), c ∈ cleanChars l :=
    fun c hc => (trimChars_isInfix (cleanChars l)).subset hc
  have hmap : (trimChars (cleanChars l)).map Char.toLower = trimChars (cleanChars l) := by
    have := List.map_congr_left (fun a ha => ((hmem a (hsub a ha)).2.1 : a.toLower = id a))
    rw [this, List.map_id]
  have hfil : (trimChars (cleanChars l)).filter keepChar = trimChars (cleanChars l) :=
    List.filter_eq_self.mpr (fun a ha => (hmem a (hsub a ha)).1)
  have hcol : collapseWs false (trimChars (cleanChars l)) = trimChars (cleanChars l) := by
    have hch := List.Chain'.infix hchain (trimChars_isInfix (cleanChars l))
    refine collapseWs_eq_self _ hch
      (fun c hc hcs => (hmem c (hsub c hc)).2.2 hcs) false (fun h => nomatch h)
  show collapseWs false (((trimChars (cleanChars l)).map Char.toLower).filter keepChar)
    = trimChars (cleanChars l)
  rw [hmap, hfil, hcol]

lemma lookup_some_mem {β : Type} : ∀ (l : List (String × β)) (k : String) (v : β),
    List.lookup k l = some v → (k, v) ∈ l := by
  intro l
  induction l with
  | nil => intro k v h; exact absurd h (by simp)
  | cons p t ih =>
    intro k v h
    obtain ⟨a, b⟩ := p
    rw [List.lookup] at h
    by_cases hk : k = a
    · subst hk
      simp only [beq_self_eq_true] at h
      injection h with h
      subst h
      exact List.mem_cons_self _ _
    · have : (k == a) = false := by simp [hk]
      rw [this] at h
      exact List.mem_cons_of_mem _ (ih k v h)

lemma skillAliases_values_canonical :
    ∀ p ∈ skillAliases, canonicalizeSkillName p.2 = p.2 := by decide

/-- C2 counterexample: the cleaning pipeline trims before stripping, so a
stripped-away leading token exposes a leading space that the first pass
never removes: canonicalizing "* sql" gives " sql", and canonicalizing
again gives "sql". -/
theorem canonicalizeSkillName_claim_false :
    canonicalizeSkillName (canonicalizeSkillName "* sql") ≠ canonicalizeSkillName "* sql" := by
  decide

/-- C2 (amended): canonicalization is idempotent on every string whose
canonical form carries no leading or trailing whitespace — in particular on
every already-canonical token — but not on all strings. -/
theorem canonicalizeSkillName_idem_of_trimmed (s : String)
    (h : jsTrim (canonicalizeSkillName s) = canonicalizeSkillName s) :
    canonicalizeSkillName (canonicalizeSkillName s) = canonicalizeSkillName s := by
  have hexp : ∀ u : String, canonicalizeSkillName u =
      match List.lookup (String.mk (cleanChars u.data)) skillAliases with
      | some v => if v = "" then String.mk (cleanChars u.data) else v
      | none => String.mk (cleanChars u.data) := fun u => rfl
  cases hl : List.lookup (String.mk (cleanChars s.data)) skillAliases with
  | none =>
    have hcs : canonicalizeSkillName s = String.mk (cleanChars s.data) := by
      rw [hexp s, hl]
    rw [hcs] at h ⊢
    have hdata : trimChars (cleanChars s.data) = cleanChars s.data := congrArg String.data h
    have hclean : cleanChars (String.mk (cleanChars s.data)).data = cleanChars s.data := by
      show cleanChars (cleanChars s.data) = cleanChars s.data
      rw [cleanChars_cleanChars, hdata]
    rw [hexp (String.mk (cleanChars s.data))]
    rw [hclean]
    rw [hl]
  | some v =>
    by_cases hv : v = ""
    · subst hv
      have hcs : canonicalizeSkillName s = String.mk (cleanChars s.data) := by
        rw [hexp s, hl]
        simp
      rw [hcs] at h ⊢
      have hdata : trimChars (cleanChars s.data) = cleanChars s.data := congrArg String.data h
      have hclean : cleanChars (String.mk (cleanChars s.data)).data = cleanChars s.data := by
        show cleanChars (cleanChars s.data) = cleanChars s.data
        rw [cleanChars_cleanChars, hdata]
      rw [hexp (String.mk (cleanChars s.data))]
      rw [hclean]
      rw [hl]
      simp
    · have hcs : canonicalizeSkillName s = v := by
        rw [hexp s, hl]
        simp [hv]
      rw [hcs]
      exact skillAliases_values_canonical _ (lookup_some_mem _ _ _ hl)

/-- C2 witness: idempotence evaluated at "Python!", whose canonical form
"python" is trimmed. -/
theorem canonicalizeSkillName_idem_witness :
    canonicalizeSkillName (canonicalizeSkillName "Python!") = canonicalizeSkillName "Python!" :=
  canonicalizeSkillName_idem_of_trimmed "Python!" (by decide)

/- ===================================================================
   Claim C9: cosine similarity
   =================================================================== -/

lemma lookup_none_of_not_mem_keys {β : Type} :
    ∀ (v : List (String × β)) (k : String), k ∉ v.map Prod.fst → List.lookup k v = none := by
  intro v k h
  induction v with
  | nil => rfl
  | cons p t ih =>
    obtain ⟨a, b⟩ := p
    simp only [List.map_cons, List.mem_cons] at h
    push_neg at h
    obtain ⟨h1, h2⟩ := h
    have hb : (k == a) = false := by simp [h1]
    simp only [List.lookup, hb]
    exact ih h2

lemma vecGet_zero_of_not_mem (v : SkillVec) {k : String} (h : k ∉ vecKeys v) :
    vecGet v k = 0 := by
  unfold vecGet
  rw [lookup_none_of_not_mem_keys v k h]
  rfl

lemma lookup_nodup_of_mem {β : Type} :
    ∀ (v : List (String × β)), (v.map Prod.fst).Nodup →
      ∀ {k : String} {x : β}, (k, x) ∈ v → List.lookup k v = some x := by
  intro v
  induction v with
  | nil => intro _ k x h; exact absurd h (by simp)
  | cons p t ih =>
    intro hnd k x h
    obtain ⟨a, b⟩ := p
    simp only [List.map_cons, List.nodup_cons] at hnd
    obtain ⟨hna, hndt⟩ := hnd
    rcases List.mem_cons.mp h with h1 | h1
    · injection h1 with hk hx
      subst hk
      subst hx
      simp [List.lookup]
    · have hk : k ∈ t.map Prod.fst := List.mem_map.mpr ⟨(k, x), h1, rfl⟩
      have hka : (k == a) = false := by
        simp only [beq_eq_false_iff_ne, ne_eq]
        intro he
        subst he
        exact hna hk
      simp only [List.lookup, hka]
      exact ih hndt h1

/-- C9: cosine similarity of a vector with itself is exactly 1 when some
weight is non-zero (in the exact-arithmetic embedding); it is exactly 0 for
vectors with disjoint key sets; and it is exactly 0 whenever either vector
has zero magnitude (all weights zero), so the division is guarded away. -/
theorem cosineSimilarity_spec (A B : SkillVec) :
    ((vecKeys A).Nodup → (∃ p ∈ A, p.2 ≠ (0 : ℝ)) → cosineSimilarity A A = 1) ∧
    ((∀ k ∈ vecKeys A, k ∉ vecKeys B) → cosineSimilarity A B = 0) ∧
    (((∀ p ∈ A, p.2 = (0 : ℝ)) ∨ (∀ p ∈ B, p.2 = (0 : ℝ))) → cosineSimilarity A B = 0) := by
  refine ⟨?_, ?_, ?_⟩
  · rintro hnd ⟨⟨k0, v0⟩, hp0, hv0⟩
    simp only [cosineSimilarity]
    set ks := ((vecKeys A ++ vecKeys A).dedup) with hks
    set m := (ks.map fun k => vecGet A k * vecGet A k).sum with hm
    have hk0 : k0 ∈ ks := by
      rw [hks, List.mem_dedup]
      exact List.mem_append_left _ (List.mem_map.mpr ⟨(k0, v0), hp0, rfl⟩)
    have hget : vecGet A k0 = v0 := by
      unfold vecGet
      rw [lookup_nodup_of_mem A hnd hp0]
      rfl
    have hmpos : 0 < m := by
      obtain ⟨s, t, hst⟩ := List.append_of_mem hk0
      rw [hm, hst, List.map_append, List.map_cons, List.sum_append, List.sum_cons]
      have h1 : 0 ≤ (s.map fun k => vecGet A k * vecGet A k).sum := by
        apply List.sum_nonneg
        intro x hx
        rw [List.mem_map] at hx
        obtain ⟨k, _, hk⟩ := hx
        rw [← hk]
        exact mul_self_nonneg _
      have h2 : 0 ≤ (t.map fun k => vecGet A k * vecGet A k).sum := by
        apply List.sum_nonneg
        intro x hx
        rw [List.mem_map] at hx
        obtain ⟨k, _, hk⟩ := hx
        rw [← hk]
        exact mul_self_nonneg _
      have h3 : 0 < vecGet A k0 * vecGet A k0 := by
        rw [hget]
        exact mul_self_pos.mpr hv0
      linarith
    have hsq : Real.sqrt m ≠ 0 := by
      rw [Real.sqrt_ne_zero']
      exact hmpos
    rw [if_neg (by
      push_neg
      exact ⟨hsq, hsq⟩)]
    rw [Real.mul_self_sqrt (le_of_lt hmpos)]
    exact div_self (ne_of_gt hmpos)
  · intro hdisj
    simp only [cosineSimilarity]
    have hdot : (((vecKeys A ++ vecKeys B).dedup).map fun k => vecGet A k * vecGet B k).sum
        = 0 := by
      apply List.sum_eq_zero
      intro x hx
      rw [List.mem_map] at hx
      obtain ⟨k, hk, hkx⟩ := hx
      rw [← hkx]
      rw [List.mem_dedup, List.mem_append] at hk
      rcases hk with hk | hk
      · rw [vecGet_zero_of_not_mem B (hdisj k hk), mul_zero]
      · have hkA : k ∉ vecKeys A := fun hka => (hdisj k hka) hk
        rw [vecGet_zero_of_not_mem A hkA, zero_mul]
    rw [hdot]
    split
    · rfl
    · exact zero_div _
  · intro hz
    have hget0 : ∀ (v : SkillVec), (∀ p ∈ v, p.2 = (0 : ℝ)) → ∀ k, vecGet v k = 0 := by
      intro v hv k
      unfold vecGet
      cases hl : List.lookup k v with
      | none => rfl
      | some x =>
        have := hv (k, x) (lookup_some_mem v k x hl)
        simpa using this
    simp only [cosineSimilarity]
    rcases hz with hA | hB
    · have hsum : (((vecKeys A ++ vecKeys B).dedup).map fun k => vecGet A k * vecGet A k).sum
          = 0 := by
        apply List.sum_eq_zero
        intro x hx
        rw [List.mem_map] at hx
        obtain ⟨k, _, hk⟩ := hx
        rw [← hk, hget0 A hA k, zero_mul]
      rw [hsum, Real.sqrt_zero]
      rw [if_pos (Or.inl rfl)]
    · have hsum : (((vecKeys A ++ vecKeys B).dedup).map fun k => vecGet B k * vecGet B k).sum
          = 0 := by
        apply List.sum_eq_zero
        intro x hx
        rw [List.mem_map] at hx
        obtain ⟨k, _, hk⟩ := hx
        rw [← hk, hget0 B hB k, zero_mul]
      rw [hsum, Real.sqrt_zero]
      rw [if_pos (Or.inr rfl)]

/-- C9 witness: the three parts evaluated on one-key vectors. -/
theorem cosineSimilarity_spec_witness :
    cosineSimilarity [("a", (1 : ℝ))] [("a", (1 : ℝ))] = 1 ∧
    cosineSimilarity [("a", (1 : ℝ))] [("b", (1 : ℝ))] = 0 ∧
    cosineSimilarity [("a", (0 : ℝ))] [("a", (1 : ℝ))] = 0 :=
  ⟨(cosineSimilarity_spec [("a", (1 : ℝ))] [("a", (1 : ℝ))]).1
      (by simp [vecKeys]) ⟨("a", 1), by simp, one_ne_zero⟩,
    (cosineSimilarity_spec [("a", (1 : ℝ))] [("b", (1 : ℝ))]).2.1
      (by
        intro k hk
        simp only [vecKeys, List.map_cons, List.map_nil, List.mem_singleton] at hk ⊢
        subst hk
        decide),
    (cosineSimilarity_spec [("a", (0 : ℝ))] [("a", (1 : ℝ))]).2.2
      (Or.inl (by
        rintro p hp
        rw [List.mem_singleton] at hp
        subst hp
        rfl))⟩

/- ===================================================================
   Claim C5: calculateFitScore bounds
   =================================================================== -/

lemma objSet_values {β : Type} (P : β → Prop) :
    ∀ (l : List (String × β)) (k : String) (v : β), (∀ p ∈ l, P p.2) → P v →
      ∀ p ∈ objSet l k v, P p.2 := by
  intro l
  induction l with
  | nil =>
    intro k v _ hv p hp
    rw [objSet, List.mem_singleton] at hp
    subst hp
    exact hv
  | cons q t ih =>
    intro k v hl hv p hp
    obtain ⟨a, b⟩ := q
    rw [objSet] at hp
    split at hp
    · rcases List.mem_cons.mp hp with h1 | h1
      · subst h1; exact hv
      · exact hl p (List.mem_cons_of_mem _ h1)
    · rcases List.mem_cons.mp hp with h1 | h1
      · subst h1; exact hl (a, b) (List.mem_cons_self _ _)
      · exact ih k v (fun q hq => hl q (List.mem_cons_of_mem _ hq)) hv p h1

lemma vecGet_nonneg_of_values (v : SkillVec) (h : ∀ p ∈ v, 0 ≤ p.2) :
    ∀ k, 0 ≤ vecGet v k := by
  intro k
  unfold vecGet
  cases hl : List.lookup k v with
  | none => exact le_refl 0
  | some x =>
    have := h (k, x) (lookup_some_mem v k x hl)
    simpa using this

lemma normalizeSkills_values (us : List String) :
    ∀ p ∈ normalizeSkills us, p.2 = (1 : ℝ) := by
  unfold normalizeSkills
  suffices h : ∀ (acc : SkillVec), (∀ p ∈ acc, p.2 = (1 : ℝ)) →
      ∀ p ∈ us.foldl (fun acc s =>
        let key := canonicalizeSkillName s
        if key.length > 0 then objSet acc key 1 else acc) acc, p.2 = (1 : ℝ) by
    exact h [] (by simp)
  induction us with
  | nil => intro acc hacc p hp; exact hacc p hp
  | cons s t ih =>
    intro acc hacc p hp
    rw [List.foldl_cons] at hp
    refine ih _ ?_ p hp
    by_cases hk : (canonicalizeSkillName s).length > 0
    · simp only [hk, if_true]
      exact objSet_values (fun x => x = (1 : ℝ)) acc _ _ hacc rfl
    · simpa only [hk, if_false] using hacc

lemma roleVector_values (rs : List RoleSkill) (hw : ∀ sk ∈ rs, 0 ≤ sk.weight) :
    ∀ p ∈ roleVector rs, 0 ≤ p.2 := by
  unfold roleVector
  suffices h : ∀ (l : List RoleSkill), (∀ sk ∈ l, 0 ≤ sk.weight) →
      ∀ (acc : SkillVec), (∀ p ∈ acc, 0 ≤ p.2) →
      ∀ p ∈ l.foldl (fun acc sk =>
        objSet acc (canonicalizeSkillName sk.name)
          (if sk.weight = 0 then 1 else sk.weight)) acc, 0 ≤ p.2 by
    exact h rs hw [] (by simp)
  intro l
  induction l with
  | nil => intro _ acc hacc p hp; exact hacc p hp
  | cons sk t ih =>
    intro hl acc hacc p hp
    rw [List.foldl_cons] at hp
    refine ih (fun q hq => hl q (List.mem_cons_of_mem _ hq)) _ ?_ p hp
    refine objSet_values _ acc _ _ hacc ?_
    by_cases hz : sk.weight = 0
    · rw [if_pos hz]; norm_num
    · rw [if_neg hz]; exact hl sk (List.mem_cons_self _ _)

lemma cosineSimilarity_bounds (A B : SkillVec)
    (hA : ∀ k, 0 ≤ vecGet A k) (hB : ∀ k, 0 ≤ vecGet B k) :
    0 ≤ cosineSimilarity A B ∧ cosineSimilarity A B ≤ 1 := by
  simp only [cosineSimilarity]
  set ks := ((vecKeys A ++ vecKeys B).dedup) with hks
  set dot := (ks.map fun k => vecGet A k * vecGet B k).sum with hd
  set sA := (ks.map fun k => vecGet A k * vecGet A k).sum with hsa
  set sB := (ks.map fun k => vecGet B k * vecGet B k).sum with hsb
  by_cases hz : Real.sqrt sA = 0 ∨ Real.sqrt sB = 0
  · rw [if_pos hz]
    norm_num
  · rw [if_neg hz]
    push_neg at hz
    have hA0 : 0 < Real.sqrt sA := (Real.sqrt_nonneg _).lt_of_ne (Ne.symm hz.1)
    have hB0 : 0 < Real.sqrt sB := (Real.sqrt_nonneg _).lt_of_ne (Ne.symm hz.2)
    have hdnn : 0 ≤ dot := by
      rw [hd]
      apply List.sum_nonneg
      intro x hx
      rw [List.mem_map] at hx
      obtain ⟨k, _, hk⟩ := hx
      rw [← hk]
      exact mul_nonneg (hA k) (hB k)
    refine ⟨div_nonneg hdnn (le_of_lt (mul_pos hA0 hB0)), ?_⟩
    rw [div_le_one (mul_pos hA0 hB0)]
    have hnd : ks.Nodup := by rw [hks]; exact List.nodup_dedup _
    have hcs := Real.sum_mul_le_sqrt_mul_sqrt ks.toFinset
      (fun k => vecGet A k) (fun k => vecGet B k)
    simp only [pow_two] at hcs
    rw [List.sum_toFinset _ hnd, List.sum_toFinset _ hnd, List.sum_toFinset _ hnd] at hcs
    exact hcs

/-- C5 counterexample: a negative role weight survives `weight || 1.0`, so
the cosine can be -1 and the fit score -100, outside [0, 100]. -/
theorem calculateFitScore_claim_false :
    calculateFitScore (some ["a"]) (some [⟨"a", -1⟩]) = -100 ∧
      ¬ (0 : ℤ) ≤ calculateFitScore (some ["a"]) (some [⟨"a", -1⟩]) := by
  have hcanon : canonicalizeSkillName "a" = "a" := by decide
  have hnorm : normalizeSkills ["a"] = [("a", (1 : ℝ))] := by
    unfold normalizeSkills
    rw [List.foldl_cons, List.foldl_nil]
    simp only [hcanon]
    rw [if_pos (by decide)]
    rfl
  have hrole : roleVector [⟨"a", -1⟩] = [("a", (-1 : ℝ))] := by
    unfold roleVector
    rw [List.foldl_cons, List.foldl_nil]
    show objSet [] (canonicalizeSkillName "a") (if (-1 : ℝ) = 0 then 1 else -1) = _
    rw [hcanon, if_neg (by norm_num)]
    rfl
  have hga : vecGet [("a", (1 : ℝ))] "a" = 1 := by
    simp [vecGet, List.lookup]
  have hgb : vecGet [("a", (-1 : ℝ))] "a" = -1 := by
    simp [vecGet, List.lookup]
  have hks : ((vecKeys [("a", (1 : ℝ))] ++ vecKeys [("a", (-1 : ℝ))]).dedup) = ["a"] := by
    show ((["a"] ++ ["a"]).dedup) = ["a"]
    decide
  have hcos : cosineSimilarity [("a", (1 : ℝ))] [("a", (-1 : ℝ))] = -1 := by
    simp only [cosineSimilarity, hks, List.map_cons, List.map_nil, List.sum_cons,
      List.sum_nil, hga, hgb]
    norm_num [Real.sqrt_one]
  have hval : calculateFitScore (some ["a"]) (some [⟨"a", -1⟩]) = -100 := by
    simp only [calculateFitScore]
    rw [if_neg (by norm_num)]
    rw [hnorm, hrole, hcos]
    unfold jsRound
    rw [show ((-1 : ℝ) * 100 + 1 / 2) = -199 / 2 by norm_num]
    rw [Int.floor_eq_iff]
    constructor <;> norm_num
  exact ⟨hval, by rw [hval]; norm_num⟩

/-- C5 (amended): `calculateFitScore` is always an integer, equals 0 on
null/absent or empty inputs (never an error), and lies in [0, 100] whenever
the role-skill weights are non-negative (as they are in the data model);
with a negative weight the score can be negative. -/
theorem calculateFitScore_spec (us : List String) (rs : List RoleSkill) :
    ((∀ sk ∈ rs, 0 ≤ sk.weight) →
      0 ≤ calculateFitScore (some us) (some rs) ∧
        calculateFitScore (some us) (some rs) ≤ 100) ∧
    (∀ r, calculateFitScore none r = 0) ∧
    (∀ u, calculateFitScore u none = 0) ∧
    (us = [] ∨ rs = [] → calculateFitScore (some us) (some rs) = 0) := by
  refine ⟨?_, fun r => by cases r <;> rfl, fun u => by cases u <;> rfl, ?_⟩
  · intro hw
    by_cases he : us.length = 0 ∨ rs.length = 0
    · simp only [calculateFitScore, if_pos he]
      norm_num
    · simp only [calculateFitScore, if_neg he]
      have hA : ∀ k, 0 ≤ vecGet (normalizeSkills us) k :=
        vecGet_nonneg_of_values _ (fun p hp => by
          rw [normalizeSkills_values us p hp]
          norm_num)
      have hB : ∀ k, 0 ≤ vecGet (roleVector rs) k :=
        vecGet_nonneg_of_values _ (roleVector_values rs hw)
      obtain ⟨h0, h1⟩ := cosineSimilarity_bounds _ _ hA hB
      unfold jsRound
      constructor
      · apply Int.le_floor.mpr
        push_cast
        nlinarith
      · have hlt : (⌊cosineSimilarity (normalizeSkills us) (roleVector rs) * 100 + 1 / 2⌋ : ℤ)
            < 101 := by
          apply Int.floor_lt.mpr
          push_cast
          nlinarith
        omega
  · intro he
    have hlen : us.length = 0 ∨ rs.length = 0 := by
      rcases he with h | h
      · exact Or.inl (by simp [h])
      · exact Or.inr (by simp [h])
    simp only [calculateFitScore]
    rw [if_pos hlen]

/-- C5 witness: the bounds evaluated at a one-skill profile and a role with
a single unit-weight skill. -/
theorem calculateFitScore_spec_witness :
    0 ≤ calculateFitScore (some ["a"]) (some [⟨"a", 1⟩]) ∧
      calculateFitScore (some ["a"]) (some [⟨"a", 1⟩]) ≤ 100 :=
  (calculateFitScore_spec ["a"] [⟨"a", 1⟩]).1 (by
    intro sk hsk
    rw [List.mem_singleton] at hsk
    subst hsk
    norm_num)

/- ===================================================================
   Claim C4: getTopRoleMatches ranking
   =================================================================== -/

lemma mem_insertDesc {α : Type} (key : α → ℤ) (x : α) :
    ∀ (l : List α) (a : α), a ∈ insertDesc key x l ↔ a = x ∨ a ∈ l := by
  intro l
  induction l with
  | nil => intro a; simp [insertDesc]
  | cons y ys ih =>
    intro a
    rw [insertDesc]
    by_cases hxy : key x < key y
    · rw [if_pos hxy]
      rw [List.mem_cons, ih a, List.mem_cons]
      tauto
    · rw [if_neg hxy]
      simp only [List.mem_cons]

lemma insertDesc_length {α : Type} (key : α → ℤ) (x : α) :
    ∀ l : List α, (insertDesc key x l).length = l.length + 1 := by
  intro l
  induction l with
  | nil => rfl
  | cons y ys ih =>
    rw [insertDesc]
    by_cases hxy : key x < key y
    · rw [if_pos hxy, List.length_cons, ih, List.length_cons]
    · rw [if_neg hxy, List.length_cons, List.length_cons]

lemma jsStableSortDesc_length {α : Type} (key : α → ℤ) :
    ∀ l : List α, (jsStableSortDesc key l).length = l.length := by
  intro l
  induction l with
  | nil => rfl
  | cons x xs ih =>
    rw [jsStableSortDesc, insertDesc_length, ih, List.length_cons]

lemma pairwise_insertDesc {α : Type} (key : α → ℤ) (x : α) :
    ∀ l : List α, l.Pairwise (fun a b => key b ≤ key a) →
      (insertDesc key x l).Pairwise (fun a b => key b ≤ key a) := by
  intro l
  induction l with
  | nil => intro _; simp [insertDesc]
  | cons y ys ih =>
    intro h
    obtain ⟨hy, hys⟩ := List.pairwise_cons.mp h
    rw [insertDesc]
    by_cases hxy : key x < key y
    · rw [if_pos hxy]
      rw [List.pairwise_cons]
      refine ⟨?_, ih hys⟩
      intro b hb
      rcases (mem_insertDesc key x ys b).mp hb with h1 | h1
      · subst h1
        exact le_of_lt hxy
      · exact hy b h1
    · rw [if_neg hxy]
      rw [List.pairwise_cons]
      refine ⟨?_, h⟩
      intro b hb
      rcases List.mem_cons.mp hb with h1 | h1
      · subst h1
        exact not_lt.mp hxy
      · exact le_trans (hy b h1) (not_lt.mp hxy)

lemma pairwise_jsStableSortDesc {α : Type} (key : α → ℤ) :
    ∀ l : List α, (jsStableSortDesc key l).Pairwise (fun a b => key b ≤ key a) := by
  intro l
  induction l with
  | nil => simp [jsStableSortDesc]
  | cons x xs ih =>
    rw [jsStableSortDesc]
    exact pairwise_insertDesc key x _ ih

lemma filter_insertDesc {α : Type} (key : α → ℤ) (x : α) (s : ℤ) :
    ∀ l : List α, (insertDesc key x l).filter (fun a => key a == s) =
      if key x == s then x :: l.filter (fun a => key a == s)
      else l.filter (fun a => key a == s) := by
  intro l
  induction l with
  | nil =>
    rw [insertDesc]
    rw [List.filter_cons]
  | cons y ys ih =>
    rw [insertDesc]
    by_cases hxy : key x < key y
    · rw [if_pos hxy]
      rw [List.filter_cons, List.filter_cons]
      by_cases hy : (key y == s) = true
      · have hx : (key x == s) = false := by
          rw [beq_iff_eq] at hy
          rw [beq_eq_false_iff_ne]
          intro hcon
          rw [hcon, ← hy] at hxy
          exact lt_irrefl _ hxy
        rw [if_pos hy, ih, hx]
        simp only [Bool.false_eq_true, if_false]
        rw [if_pos hy]
      · have hy' : (key y == s) = false := by simpa using hy
        rw [hy']
        simp only [Bool.false_eq_true, if_false]
        rw [ih]
    · rw [if_neg hxy]
      rw [List.filter_cons]

lemma filter_jsStableSortDesc {α : Type} (key : α → ℤ) (s : ℤ) :
    ∀ l : List α, (jsStableSortDesc key l).filter (fun a => key a == s) =
      l.filter (fun a => key a == s) := by
  intro l
  induction l with
  | nil => rfl
  | cons x xs ih =>
    rw [jsStableSortDesc, filter_insertDesc, List.filter_cons]
    by_cases hx : (key x == s) = true
    · rw [if_pos hx, if_pos hx, ih]
    · have hx' : (key x == s) = false := by simpa using hx
      rw [hx']
      simp only [Bool.false_eq_true, if_false]
      exact ih

/-- C4: the ranking equals "stable-sort the scored catalog descending by
score, take the first k"; its length is at most k; it is sorted descending
by score; sorting preserves the catalog order within every score class
(stability — ties broken by catalog iteration order); an empty catalog
gives an empty ranking; and a non-empty catalog always gives a non-empty
top-3, whatever the profile.  The embedding is total, so ranking never
raises an error. -/
theorem getTopRoleMatches_spec (profile : MatchProfile) (catalog : List Role) (k : Nat) :
    getTopRoleMatches profile catalog k
        = (jsStableSortDesc (fun m => m.score) (catalog.map (scoreRole profile))).take k ∧
    (getTopRoleMatches profile catalog k).length ≤ k ∧
    (getTopRoleMatches profile catalog k).Pairwise (fun a b => b.score ≤ a.score) ∧
    (∀ s : ℤ, (jsStableSortDesc (fun m : RoleMatch => m.score)
        (catalog.map (scoreRole profile))).filter (fun m : RoleMatch => m.score == s)
      = (catalog.map (scoreRole profile)).filter (fun m : RoleMatch => m.score == s)) ∧
    (catalog = [] → getTopRoleMatches profile catalog k = []) ∧
    (catalog ≠ [] → getTopRoleMatches profile catalog 3 ≠ []) := by
  refine ⟨rfl, ?_, ?_, ?_, ?_, ?_⟩
  · exact List.length_take_le _ _
  · exact List.Pairwise.sublist (List.take_sublist _ _)
      (pairwise_jsStableSortDesc (fun m : RoleMatch => m.score) _)
  · intro s
    exact filter_jsStableSortDesc _ s _
  · intro h
    subst h
    simp [getTopRoleMatches, jsStableSortDesc]
  · intro h hcon
    have hlen : (getTopRoleMatches profile catalog 3).length
        = min 3 (catalog.map (scoreRole profile)).length := by
      show ((jsStableSortDesc _ _).take 3).length = _
      rw [List.length_take, jsStableSortDesc_length]
    rw [hcon] at hlen
    rw [List.length_map] at hlen
    have hpos : 0 < catalog.length := List.length_pos.mpr h
    simp only [List.length_nil] at hlen
    omega

/-- C4 witness: a singleton catalog yields a non-empty top-3 even for a
profile sharing no skills with the role. -/
theorem getTopRoleMatches_spec_witness :
    getTopRoleMatches ⟨["cooking"], ["food"]⟩
        [⟨"r1", "Data Analyst", "Tech", [⟨"python", 1⟩]⟩] 3 ≠ [] :=
  (getTopRoleMatches_spec ⟨["cooking"], ["food"]⟩
      [⟨"r1", "Data Analyst", "Tech", [⟨"python", 1⟩]⟩] 3).2.2.2.2.2
    (List.cons_ne_nil _ _)
